import Mathlib

/-!
Shallow embedding of the kop-audio voice-chat relay (Rust) for specification
checking.  Bytes are modelled as `Nat` (values < 256 where it matters),
byte buffers as `List Nat`, and peer network addresses by their textual
form as UTF-8 bytes (`SocketAddr.to_string` is injective on addresses, and
the code only ever compares addresses for equality and serialises them as
text), so `Addr := List Nat`.
-/

namespace KopAudio

/-- Rust `const BUF_SIZE: u32 = 3840` (main.rs): 20 ms of stereo 48 kHz
16-bit PCM. -/
def BUF_SIZE : Nat := 3840

/-- Rust `const MSG_SIZE: u32 = BUF_SIZE + 1` (main.rs). -/
def MSG_SIZE : Nat := BUF_SIZE + 1

/-- Rust `const FRAME_SIZE: usize = 960` (main.rs): samples per channel per
20 ms opus frame. -/
def FRAME_SIZE : Nat := 960

/-- Rust `const CHANNELS: usize = 2` (main.rs). -/
def CHANNELS : Nat := 2

/-- `enum MessageType` (server.rs lines 5-14). -/
inductive MessageType where
  | Audio
  | Ping
  | Hello
  | Bye
  | NewClient
  | DeleteClient
deriving DecidableEq, Repr

/-- The `#[repr(u8)]` discriminants of `MessageType` (`msg_type as u8`). -/
def MessageType.toByte : MessageType → Nat
  | .Audio => 1
  | .Ping => 2
  | .Hello => 3
  | .Bye => 4
  | .NewClient => 5
  | .DeleteClient => 6

/-- `enum Message` (server.rs lines 16-25).  The Rust `Hello` variant holds a
`&str`; we keep the underlying UTF-8 bytes of that string. -/
inductive Message where
  | Audio (data : List Nat)
  | Ping
  | Hello (text : List Nat)
  | NewClient (data : List Nat)
  | DeleteClient (data : List Nat)
  | Bye
  | Unknown (kind : Nat) (data : List Nat)
deriving DecidableEq, Repr

/-- Validity of a byte sequence as UTF-8, exactly the check performed by
Rust `std::str::from_utf8`: ASCII, or a 2/3/4-byte sequence with the
standard restrictions (no overlong encodings, no surrogates, max
U+10FFFF).  Leading byte classes: `00-7F`, `C2-DF`, `E0` (second byte
`A0-BF`), `E1-EC`, `ED` (second byte `80-9F`), `EE-EF`, `F0` (second byte
`90-BF`), `F1-F3`, `F4` (second byte `80-8F`); continuation bytes are
`80-BF`. -/
def utf8Valid : List Nat → Bool
  | [] => true
  | b :: rest =>
    if b < 0x80 then utf8Valid rest
    else if b < 0xC2 then false
    else if b ≤ 0xDF then
      match rest with
      | c1 :: rest2 => (decide (0x80 ≤ c1 ∧ c1 ≤ 0xBF)) && utf8Valid rest2
      | [] => false
    else if b ≤ 0xEF then
      match rest with
      | c1 :: c2 :: rest2 =>
        let lo1 : Nat := if b = 0xE0 then 0xA0 else 0x80
        let hi1 : Nat := if b = 0xED then 0x9F else 0xBF
        (decide (lo1 ≤ c1 ∧ c1 ≤ hi1)) && (decide (0x80 ≤ c2 ∧ c2 ≤ 0xBF))
          && utf8Valid rest2
      | _ => false
    else if b ≤ 0xF4 then
      match rest with
      | c1 :: c2 :: c3 :: rest2 =>
        let lo1 : Nat := if b = 0xF0 then 0x90 else 0x80
        let hi1 : Nat := if b = 0xF4 then 0x8F else 0xBF
        (decide (lo1 ≤ c1 ∧ c1 ≤ hi1)) && (decide (0x80 ≤ c2 ∧ c2 ≤ 0xBF))
          && (decide (0x80 ≤ c3 ∧ c3 ≤ 0xBF)) && utf8Valid rest2
      | _ => false
    else false

/-- `fn decode_message(buf: &[u8]) -> Message` (server.rs lines 182-202).
The Hello branch is `std::str::from_utf8(payload).unwrap_or("")`: the
whole payload when it is valid UTF-8, the empty string otherwise. -/
def decode_message (buf : List Nat) : Message :=
  match buf with
  | [] => .Unknown 0 []
  | kind :: payload =>
    if kind = MessageType.Audio.toByte then .Audio payload
    else if kind = MessageType.Ping.toByte then .Ping
    else if kind = MessageType.Hello.toByte then
      .Hello (if utf8Valid payload then payload else [])
    else if kind = MessageType.Bye.toByte then .Bye
    else if kind = MessageType.NewClient.toByte then .NewClient payload
    else if kind = MessageType.DeleteClient.toByte then .DeleteClient payload
    else .Unknown kind payload

/-- `fn encode_message(msg_type: MessageType, payload: &[u8]) -> Vec<u8>`
(server.rs lines 204-209): one kind byte followed by the payload. -/
def encode_message (msg_type : MessageType) (payload : List Nat) : List Nat :=
  msg_type.toByte :: payload

/-- The payload bytes carried by a decoded message (`Ping` and `Bye` carry
none). -/
def Message.payloadBytes : Message → List Nat
  | .Audio d => d
  | .Ping => []
  | .Hello t => t
  | .NewClient d => d
  | .DeleteClient d => d
  | .Bye => []
  | .Unknown _ d => d

/-- The kind byte a decoded message corresponds to. -/
def Message.kindByte : Message → Nat
  | .Audio _ => 1
  | .Ping => 2
  | .Hello _ => 3
  | .NewClient _ => 5
  | .DeleteClient _ => 6
  | .Bye => 4
  | .Unknown k _ => k

/-! ## Server relay (server.rs `server_loop` / `remove_client`)

A peer address (`std::net::SocketAddr`) is modelled by its textual form as
UTF-8 bytes: the code compares addresses only for equality and serialises
them with `to_string().as_bytes()`, and `to_string` is injective on socket
addresses.  `std::time::Instant` is modelled as a `Nat` number of seconds
(the code only ever takes `duration_since(..).as_secs()` of a monotone
clock). -/

/-- A peer address, identified with the bytes of its textual form. -/
abbrev Addr := List Nat

/-- `struct ClientInfo` (server.rs lines 27-30). -/
structure ClientInfo where
  addr : Addr
  last_active : Nat
deriving DecidableEq, Repr

/-- The mutable state of `server_loop` across iterations: the peer registry
`clients` and the liveness-sweep counter `check_counter` (server.rs lines
33-35). -/
structure ServerState where
  clients : List ClientInfo
  check_counter : Nat
deriving DecidableEq, Repr

/-- A datagram sent by the server: destination address and bytes. -/
abbrev Send := Addr × List Nat

/-- server_loop lines 44-57: refresh `last_active` of every entry matching
the sender and append a fresh entry when none matched. -/
def registerOrRefresh (clients : List ClientInfo) (addr : Addr) (now : Nat) :
    List ClientInfo :=
  let refreshed := clients.map fun c =>
    if c.addr = addr then { c with last_active := now } else c
  if clients.any fun c => c.addr = addr then refreshed
  else refreshed ++ [⟨addr, now⟩]

/-- `async fn remove_client` (server.rs lines 149-180): drop every entry for
`addr` (`Vec::retain` keeps order); if anything was dropped, send `addr` a
`Bye` acknowledgment and then one `DeleteClient` datagram — payload the
removed address as text — to each remaining client, in registry order. -/
def remove_client (clients : List ClientInfo) (addr : Addr) :
    List ClientInfo × List Send :=
  let remaining := clients.filter fun c => ¬ c.addr = addr
  if remaining.length < clients.length then
    (remaining,
      (addr, encode_message .Bye []) ::
        remaining.map fun c => (c.addr, encode_message .DeleteClient addr))
  else (clients, [])

/-- The `for addr in &to_remove { remove_client(..) }` loop of the liveness
sweep (server.rs lines 66-68), threading the registry and collecting sends
in order. -/
def removeAll (toRemove : List Addr) (clients : List ClientInfo) :
    List ClientInfo × List Send :=
  match toRemove with
  | [] => (clients, [])
  | a :: rest =>
    let r1 := remove_client clients a
    let r2 := removeAll rest r1.1
    (r2.1, r1.2 ++ r2.2)

/-- server_loop lines 60-68: collect the addresses of every client whose
last activity is at least 500 seconds old and remove each of them. -/
def runSweep (clients : List ClientInfo) (now : Nat) :
    List ClientInfo × List Send :=
  let toRemove :=
    (clients.filter fun c => 500 ≤ now - c.last_active).map (·.addr)
  removeAll toRemove clients

/-- server_loop lines 77-145: dispatch on the decoded message.  Returns the
registry after the branch and the datagrams the branch sends, in order.
`Audio` forwards the received bytes `buf` verbatim (`&buf[..len]`) to every
other client; `Hello` first acknowledges with the decoded text, then for
each other client sends it a `NewClient` naming the sender and sends the
sender a `NewClient` naming it; `Bye` runs `remove_client`; everything else
sends nothing and leaves the registry alone. -/
def dispatch (clients : List ClientInfo) (addr : Addr) (buf : List Nat) :
    List ClientInfo × List Send :=
  match decode_message buf with
  | .Audio _ =>
    (clients,
      (clients.filter fun c => ¬ c.addr = addr).map fun c => (c.addr, buf))
  | .Hello text =>
    (clients,
      (addr, encode_message .Hello text) ::
        (clients.filter fun c => ¬ c.addr = addr).flatMap fun c =>
          [(c.addr, encode_message .NewClient addr),
           (addr, encode_message .NewClient c.addr)])
  | .Bye => remove_client clients addr
  | _ => (clients, [])

/-- One iteration of `server_loop` (server.rs lines 36-146) after a datagram
`buf` is received from `addr` at time `now`: liveness registration, counter
increment, the sweep once the counter reaches 100, then message dispatch.
Returns the new loop state and all datagrams sent, in order. -/
def server_step (st : ServerState) (now : Nat) (addr : Addr)
    (buf : List Nat) : ServerState × List Send :=
  let clients1 := registerOrRefresh st.clients addr now
  let counter1 := st.check_counter + 1
  let swept :=
    if 100 ≤ counter1 then
      let r := runSweep clients1 now
      (r.1, r.2, 0)
    else (clients1, [], counter1)
  let d := dispatch swept.1 addr buf
  (⟨d.1, swept.2.2⟩, swept.2.1 ++ d.2)

/-! ## Client voice gate (client.rs `NetworkClient::consume`) -/

/-- `enum TuiMessage` (client.rs lines 32-41). -/
inductive TuiMessage where
  | Connect
  | Disconnect
  | ToggleMute
  | ToggleDeafen
  | TransmitAudio (b : Bool)
  | NewClient (a : Addr)
  | DeleteClient (a : Addr)
  | Exit
deriving DecidableEq, Repr

/-- The gating-relevant fields of `struct NetworkClient` (client.rs lines
20-31): the hangover counter, its limit, and the mute flag.  The socket,
encoder and channels are modelled separately (the encoder as an abstract
function argument). -/
structure NetworkClient where
  hangover : Nat
  hangover_limit : Nat
  muted : Bool
deriving DecidableEq, Repr

/-- The gate state built by `NetworkClient::new` (client.rs lines 74-76):
`hangover = 0`, `hangover_limit = 10`, `muted = false`. -/
def NetworkClient.new : NetworkClient := ⟨0, 10, false⟩

/-- One little-endian `i16` from two bytes, two's complement. -/
def i16OfLE (lo hi : Nat) : Int :=
  let v := lo + 256 * hi
  if v < 32768 then (v : Int) else (v : Int) - 65536

/-- The reinterpretation of the byte buffer as `&[i16]` (client.rs lines
124-125): `data.len() / 2` little-endian 16-bit samples (a trailing odd
byte is dropped, as `from_raw_parts(.., len / 2)` drops it). -/
def bytesToPcm : List Nat → List Int
  | lo :: hi :: rest => i16OfLE lo hi :: bytesToPcm rest
  | _ => []

/-- Sum of squared samples, the fold of client.rs lines 275-278.  The `f64`
arithmetic there is exact on this range: each square is below 2^30 and the
sum of at most a frame of them is far below 2^53. -/
def sumSq (pcm : List Int) : Int :=
  match pcm with
  | [] => 0
  | s :: rest => s * s + sumSq rest

/-- `fn is_silence(pcm: &[i16], threshold: f32) -> bool` (client.rs lines
270-282): empty input is silent, otherwise the RMS of the samples is
compared against the threshold.  `sqrt(sum / len) < t` is stated as the
equivalent exact condition `sum < t^2 * len` (for `t ≥ 0`); the only `f64`
steps that round — the division and the square root — round to nearest and
can disagree with the exact comparison only when the true RMS is within
one ulp of the threshold, which no claim here depends on. -/
def is_silence (pcm : List Int) (threshold : ℚ) : Bool :=
  if pcm.isEmpty then true
  else decide ((sumSq pcm : ℚ) < threshold ^ 2 * pcm.length)

/-- `fn consume(&mut self, data: &[u8])` of `impl Consumer for NetworkClient`
(client.rs lines 112-159), as a function of the gate state, the message
polled from the TUI channel this iteration (`None` when the channel is
empty), and the raw byte frame.  The opus encoder is the abstract `enc`.

Returns `none` where the Rust code panics (the slice `&pcm[..samples_needed]`
when the buffer holds fewer than `FRAME_SIZE * CHANNELS` samples);
otherwise the new state, the TUI events emitted, and the datagram handed
to `try_send` (`none` when the frame is dropped: muted, or silent with an
exhausted hangover). -/
def NetworkClient.consume (enc : List Int → List Nat) (self : NetworkClient)
    (inbox : Option TuiMessage) (data : List Nat) :
    Option (NetworkClient × List TuiMessage × Option (List Nat)) :=
  let self :=
    match inbox with
    | some .ToggleMute => { self with muted := !self.muted }
    | _ => self
  if self.muted then some (self, [.TransmitAudio false], none)
  else
    let pcmAll := bytesToPcm data
    if pcmAll.length < FRAME_SIZE * CHANNELS then none
    else
      let pcm := pcmAll.take (FRAME_SIZE * CHANNELS)
      if is_silence pcm 200 then
        if self.hangover = 0 then some (self, [.TransmitAudio false], none)
        else
          let self := { self with hangover := self.hangover - 1 }
          some (self, [.TransmitAudio true],
            some (encode_message .Audio (enc pcm)))
      else
        let self := { self with hangover := self.hangover_limit }
        some (self, [.TransmitAudio true],
          some (encode_message .Audio (enc pcm)))

/-- `consume` iterated over a list of frames with an empty TUI inbox at
every step (the situation of claims about uninterrupted frame runs),
collecting each step's emitted events and sent datagram. -/
def consumeRun (enc : List Int → List Nat) (self : NetworkClient) :
    List (List Nat) →
      Option (NetworkClient × List (List TuiMessage × Option (List Nat)))
  | [] => some (self, [])
  | f :: fs =>
    match self.consume enc none f with
    | none => none
    | some (self1, ev, snt) =>
      match consumeRun enc self1 fs with
      | none => none
      | some (self2, rs) => some (self2, (ev, snt) :: rs)

/-! ## Claims about the wire protocol -/

/-- C1 (corrected), counterexample to the claim as stated: the round-trip
does not preserve payload bytes for every known kind.  A `Hello` with the
single (invalid-UTF-8) byte 255 decodes to `Hello ""`, and a `Ping` with
payload `[7]` decodes to the payload-less `Ping` — both payloads are within
the maximum frame size yet are not reconstructed. -/
theorem decode_encode_roundtrip_fails :
    ([255] : List Nat).length ≤ BUF_SIZE ∧
      Message.payloadBytes
        (decode_message (encode_message .Hello [255])) ≠ [255] ∧
    ([7] : List Nat).length ≤ BUF_SIZE ∧
      Message.payloadBytes (decode_message (encode_message .Ping [7])) ≠ [7] := by
  refine ⟨by decide, by decide, by decide, by decide⟩

/-- C1 (amended): for every known kind and payload of length at most the
frame bound, decoding the encoding recovers the kind byte; the payload
bytes are recovered for `Audio`, `NewClient` and `DeleteClient` always,
for `Hello` whenever the payload is valid UTF-8, while `Ping` and `Bye`
decode to payload-less messages. -/
theorem decode_encode_roundtrip (t : MessageType) (payload : List Nat)
    (hlen : payload.length ≤ BUF_SIZE) :
    (decode_message (encode_message t payload)).kindByte = t.toByte ∧
    ((t = .Audio ∨ t = .NewClient ∨ t = .DeleteClient) →
      (decode_message (encode_message t payload)).payloadBytes = payload) ∧
    (t = .Hello → utf8Valid payload = true →
      (decode_message (encode_message t payload)).payloadBytes = payload) ∧
    ((t = .Ping ∨ t = .Bye) →
      (decode_message (encode_message t payload)).payloadBytes = []) := by
  cases t <;>
    simp [decode_message, encode_message, MessageType.toByte,
      Message.kindByte, Message.payloadBytes] <;>
    intro h <;> simp [h, Message.payloadBytes]

/-- Witness for `decode_encode_roundtrip` at kind `Audio`, payload `[5]`. -/
theorem decode_encode_roundtrip_witness :
    ([5] : List Nat).length ≤ BUF_SIZE ∧
    ((decode_message (encode_message .Audio [5])).kindByte =
        MessageType.Audio.toByte ∧
      ((MessageType.Audio = .Audio ∨ MessageType.Audio = .NewClient ∨
          MessageType.Audio = .DeleteClient) →
        (decode_message (encode_message .Audio [5])).payloadBytes = [5]) ∧
      (MessageType.Audio = .Hello → utf8Valid [5] = true →
        (decode_message (encode_message .Audio [5])).payloadBytes = [5]) ∧
      ((MessageType.Audio = .Ping ∨ MessageType.Audio = .Bye) →
        (decode_message (encode_message .Audio [5])).payloadBytes = [])) :=
  ⟨by decide, decode_encode_roundtrip .Audio [5] (by decide)⟩

/-- C2: a first byte outside the known kind set decodes to `Unknown` with
that byte and the remaining payload unchanged, and the empty buffer decodes
to `Unknown` as well (`decode_message` is total, so it cannot panic). -/
theorem decode_unknown_kind (k : Nat) (payload : List Nat)
    (hk : k ≠ 1 ∧ k ≠ 2 ∧ k ≠ 3 ∧ k ≠ 4 ∧ k ≠ 5 ∧ k ≠ 6) :
    decode_message (k :: payload) = .Unknown k payload ∧
    decode_message [] = .Unknown 0 [] := by
  obtain ⟨h1, h2, h3, h4, h5, h6⟩ := hk
  exact ⟨by simp [decode_message, MessageType.toByte, h1, h2, h3, h4, h5, h6],
    rfl⟩

/-- Witness for `decode_unknown_kind` at kind byte 99, payload `[7, 8]`. -/
theorem decode_unknown_kind_witness :
    ((99 : Nat) ≠ 1 ∧ (99 : Nat) ≠ 2 ∧ (99 : Nat) ≠ 3 ∧ (99 : Nat) ≠ 4 ∧
      (99 : Nat) ≠ 5 ∧ (99 : Nat) ≠ 6) ∧
    (decode_message (99 :: [7, 8]) = .Unknown 99 [7, 8] ∧
      decode_message [] = .Unknown 0 []) :=
  ⟨by decide, decode_unknown_kind 99 [7, 8] (by decide)⟩

/-- C9 (corrected), counterexample to the claim as stated: decoding a Hello
whose payload is the invalid byte 255 followed by the ASCII byte 97 yields
`Hello ""` — the valid portion (97) is NOT preserved in the resulting text,
because the code uses `from_utf8(..).unwrap_or("")`, not lossy decoding. -/
theorem decode_hello_not_lossy :
    decode_message [3, 255, 97] = Message.Hello [] ∧
    (97 : Nat) ∉ Message.payloadBytes (decode_message [3, 255, 97]) := by
  refine ⟨by decide, by decide⟩

/-- C9 (amended): for every Hello whose payload is not valid UTF-8,
`decode_message` still succeeds (it is total, hence never panics) but the
entire payload is replaced by the empty text — valid portions are
discarded, not preserved. -/
theorem decode_hello_invalid_utf8 (payload : List Nat)
    (h : utf8Valid payload = false) :
    decode_message (encode_message .Hello payload) = .Hello [] := by
  simp [decode_message, encode_message, MessageType.toByte, h]

/-- Witness for `decode_hello_invalid_utf8` at payload `[255]`. -/
theorem decode_hello_invalid_utf8_witness :
    utf8Valid [255] = false ∧
    decode_message (encode_message .Hello [255]) = .Hello [] :=
  ⟨by decide, decode_hello_invalid_utf8 [255] (by decide)⟩

/-! ## Claims about the server relay -/

/-- A datagram from a sender not in the registry appends a fresh entry. -/
lemma registerOrRefresh_of_not_mem (clients : List ClientInfo) (addr : Addr)
    (now : Nat) (h : ∀ c ∈ clients, c.addr ≠ addr) :
    registerOrRefresh clients addr now = clients ++ [⟨addr, now⟩] := by
  have hmap : clients.map
      (fun c => if c.addr = addr then { c with last_active := now } else c)
      = clients := by
    conv_rhs => rw [← List.map_id clients]
    exact List.map_congr_left fun c hc => by simp [h c hc]
  have hany : (clients.any fun c => decide (c.addr = addr)) = false := by
    simp only [List.any_eq_false, decide_eq_true_eq]
    exact h
  simp [registerOrRefresh, hmap, hany]

/-- C4: an Audio datagram received from `P` is forwarded — as the exact
received bytes, with no re-encoding — to every peer registered at forward
time whose address differs from `P`, and every datagram the step sends has
a destination other than `P` and carries the received bytes verbatim.
(The hypothesis on `check_counter` says the liveness sweep, which runs
every 100th datagram and only shrinks the registry, is not triggered by
this datagram.) -/
theorem audio_relay_excludes_sender (st : ServerState) (now : Nat) (P : Addr)
    (payload : List Nat) (hc : st.check_counter + 1 < 100) :
    (server_step st now P (1 :: payload)).2 =
      ((registerOrRefresh st.clients P now).filter
          fun c => ¬ c.addr = P).map (fun c => (c.addr, 1 :: payload)) ∧
    ∀ s ∈ (server_step st now P (1 :: payload)).2,
      s.1 ≠ P ∧ s.2 = 1 :: payload := by
  have hlt : ¬ 100 ≤ st.check_counter + 1 := by omega
  have hsends : (server_step st now P (1 :: payload)).2 =
      ((registerOrRefresh st.clients P now).filter
          fun c => ¬ c.addr = P).map (fun c => (c.addr, 1 :: payload)) := by
    simp [server_step, dispatch, decode_message, MessageType.toByte, hlt]
  refine ⟨hsends, ?_⟩
  intro s hs
  rw [hsends] at hs
  simp only [List.mem_map, List.mem_filter] at hs
  obtain ⟨c, ⟨-, hcP⟩, rfl⟩ := hs
  simpa using hcP

/-- Witness for `audio_relay_excludes_sender`: registry holding peers `[65]`
and `[66]`, Audio datagram `[1, 9]` received from `[66]`. -/
theorem audio_relay_excludes_sender_witness :
    (⟨[⟨[65], 0⟩, ⟨[66], 3⟩], 0⟩ : ServerState).check_counter + 1 < 100 ∧
    ((server_step ⟨[⟨[65], 0⟩, ⟨[66], 3⟩], 0⟩ 5 [66] (1 :: [9])).2 =
      ((registerOrRefresh
          (⟨[⟨[65], 0⟩, ⟨[66], 3⟩], 0⟩ : ServerState).clients [66] 5).filter
            fun c => ¬ c.addr = [66]).map (fun c => (c.addr, 1 :: [9])) ∧
      ∀ s ∈ (server_step ⟨[⟨[65], 0⟩, ⟨[66], 3⟩], 0⟩ 5 [66] (1 :: [9])).2,
        s.1 ≠ [66] ∧ s.2 = 1 :: [9]) :=
  ⟨by decide,
    audio_relay_excludes_sender ⟨[⟨[65], 0⟩, ⟨[66], 3⟩], 0⟩ 5 [66] [9]
      (by decide)⟩

/-- C10: on any Hello datagram from `A` (new or already registered, sweep
not triggered), the very first datagram the server sends is a Hello back to
`A` whose payload is the UTF-8-decoded text of the incoming payload (the
whole payload when valid UTF-8, empty otherwise), and every later send of
the step is a NewClient notification. -/
theorem hello_ack_precedes_notifications (st : ServerState) (now : Nat)
    (A : Addr) (payload : List Nat) (hc : st.check_counter + 1 < 100) :
    ((server_step st now A (3 :: payload)).2).head? =
      some (A, encode_message .Hello
        (if utf8Valid payload then payload else [])) ∧
    ∀ s ∈ ((server_step st now A (3 :: payload)).2).tail,
      ∃ x, s.2 = encode_message .NewClient x := by
  have hlt : ¬ 100 ≤ st.check_counter + 1 := by omega
  have hsends : (server_step st now A (3 :: payload)).2 =
      (A, encode_message .Hello
          (if utf8Valid payload then payload else [])) ::
        ((registerOrRefresh st.clients A now).filter
            fun c => ¬ c.addr = A).flatMap fun c =>
          [(c.addr, encode_message .NewClient A),
           (A, encode_message .NewClient c.addr)] := by
    simp [server_step, dispatch, decode_message, MessageType.toByte, hlt]
  rw [hsends]
  refine ⟨rfl, ?_⟩
  intro s hs
  simp only [List.tail_cons, List.mem_flatMap, List.mem_cons,
    List.mem_singleton, List.not_mem_nil, or_false] at hs
  obtain ⟨c, -, h | h⟩ := hs
  · exact ⟨A, by rw [h]⟩
  · exact ⟨c.addr, by rw [h]⟩

/-- Witness for `hello_ack_precedes_notifications`: one registered peer
`[65]`, Hello with payload `[104]` from the fresh address `[66]`. -/
theorem hello_ack_precedes_notifications_witness :
    (⟨[⟨[65], 0⟩], 0⟩ : ServerState).check_counter + 1 < 100 ∧
    (((server_step ⟨[⟨[65], 0⟩], 0⟩ 5 [66] (3 :: [104])).2).head? =
      some ([66], encode_message .Hello
        (if utf8Valid [104] then [104] else [])) ∧
    ∀ s ∈ ((server_step ⟨[⟨[65], 0⟩], 0⟩ 5 [66] (3 :: [104])).2).tail,
      ∃ x, s.2 = encode_message .NewClient x) :=
  ⟨by decide,
    hello_ack_precedes_notifications ⟨[⟨[65], 0⟩], 0⟩ 5 [66] [104] (by decide)⟩

/-- In the per-peer notification pairs of the Hello branch, the datagram
`NewClient(B)` addressed to `A` occurs once per registry entry with
address `A` (for `A ≠ B`). -/
lemma count_newclient_to_peer (cs : List ClientInfo) (A B : Addr)
    (hAB : A ≠ B) :
    (cs.flatMap fun c =>
        [(c.addr, encode_message .NewClient B),
         (B, encode_message .NewClient c.addr)]).count
        (A, encode_message .NewClient B)
      = cs.countP fun c => c.addr = A := by
  induction cs with
  | nil => simp
  | cons c rest ih =>
    rw [List.flatMap_cons, List.count_append, ih, List.countP_cons]
    by_cases h : c.addr = A <;>
      simp [List.count_cons, beq_iff_eq, Prod.ext_iff, encode_message, h,
        hAB, Ne.symm hAB, Nat.add_comm]

/-- In the per-peer notification pairs of the Hello branch, the datagram
`NewClient(A)` addressed to `B` occurs once per registry entry with
address `A` (for `A ≠ B`). -/
lemma count_newclient_to_sender (cs : List ClientInfo) (A B : Addr)
    (hAB : A ≠ B) :
    (cs.flatMap fun c =>
        [(c.addr, encode_message .NewClient B),
         (B, encode_message .NewClient c.addr)]).count
        (B, encode_message .NewClient A)
      = cs.countP fun c => c.addr = A := by
  induction cs with
  | nil => simp
  | cons c rest ih =>
    rw [List.flatMap_cons, List.count_append, ih, List.countP_cons]
    by_cases h : c.addr = A <;>
      simp [List.count_cons, beq_iff_eq, Prod.ext_iff, encode_message, h,
        hAB, Ne.symm hAB, Nat.add_comm]

/-- With pairwise-distinct registry addresses, exactly one entry carries a
given registered address. -/
lemma countP_addr_eq_one (cs : List ClientInfo) (A : Addr)
    (hnd : (cs.map (·.addr)).Nodup) (hA : A ∈ cs.map (·.addr)) :
    (cs.countP fun c => c.addr = A) = 1 := by
  induction cs with
  | nil => simp at hA
  | cons c rest ih =>
    simp only [List.map_cons, List.nodup_cons] at hnd
    rw [List.countP_cons]
    rcases List.mem_cons.mp hA with h | h
    · have hzero : (rest.countP fun c => c.addr = A) = 0 := by
        rw [List.countP_eq_zero]
        intro x hx hxA
        apply hnd.1
        have hxc : x.addr = c.addr := (of_decide_eq_true hxA).trans h
        rw [← hxc]
        exact List.mem_map.mpr ⟨x, hx, rfl⟩
      simp [hzero, h.symm]
    · have hcA : ¬ c.addr = A := fun hh => hnd.1 (by rw [hh]; exact h)
      simp [ih hnd.2 h, hcA]

/-- C5: when `B` sends Hello while not yet registered and `A` is a
registered peer (registry addresses pairwise distinct, sweep not
triggered), the step sends exactly one `NewClient(B)` datagram to `A` and
exactly one `NewClient(A)` datagram to `B`. -/
theorem hello_handshake_symmetry (st : ServerState) (now : Nat) (B : Addr)
    (payload : List Nat) (A : Addr)
    (hnd : (st.clients.map (·.addr)).Nodup)
    (hB : B ∉ st.clients.map (·.addr))
    (hA : A ∈ st.clients.map (·.addr))
    (hc : st.check_counter + 1 < 100) :
    ((server_step st now B (3 :: payload)).2).count
        (A, encode_message .NewClient B) = 1 ∧
    ((server_step st now B (3 :: payload)).2).count
        (B, encode_message .NewClient A) = 1 := by
  have hAB : A ≠ B := fun h => hB (h ▸ hA)
  have hB' : ∀ c ∈ st.clients, c.addr ≠ B := fun c hc' h =>
    hB (List.mem_map.mpr ⟨c, hc', h⟩)
  have hlt : ¬ 100 ≤ st.check_counter + 1 := by omega
  have hfilter : ((st.clients ++ [(⟨B, now⟩ : ClientInfo)]).filter
      fun c => !decide (c.addr = B)) = st.clients := by
    rw [List.filter_append]
    have h1 : (st.clients.filter fun c => !decide (c.addr = B)) =
        st.clients :=
      List.filter_eq_self.mpr fun c hcc => by simp [hB' c hcc]
    have h2 : (([(⟨B, now⟩ : ClientInfo)]).filter
        fun c => !decide (c.addr = B)) = [] := by simp
    rw [h1, h2, List.append_nil]
  have hsends : (server_step st now B (3 :: payload)).2 =
      (B, encode_message .Hello
          (if utf8Valid payload then payload else [])) ::
        st.clients.flatMap fun c =>
          [(c.addr, encode_message .NewClient B),
           (B, encode_message .NewClient c.addr)] := by
    simp only [server_step, dispatch, decode_message, MessageType.toByte]
    rw [registerOrRefresh_of_not_mem st.clients B now hB']
    simp [hlt, hfilter]
  rw [hsends]
  have hone := countP_addr_eq_one st.clients A hnd hA
  constructor
  · rw [List.count_cons, count_newclient_to_peer st.clients A B hAB, hone]
    simp [beq_iff_eq, Prod.ext_iff, encode_message, MessageType.toByte,
      hAB, Ne.symm hAB]
  · rw [List.count_cons, count_newclient_to_sender st.clients A B hAB, hone]
    simp [beq_iff_eq, Prod.ext_iff, encode_message, MessageType.toByte]

/-- Witness for `hello_handshake_symmetry`: registry `[[65]]`, Hello with
payload `[104]` from the fresh address `[66]`, counting the pair of
notifications between `[65]` and `[66]`. -/
theorem hello_handshake_symmetry_witness :
    (((⟨[⟨[65], 0⟩], 0⟩ : ServerState).clients.map (·.addr)).Nodup ∧
      [66] ∉ (⟨[⟨[65], 0⟩], 0⟩ : ServerState).clients.map (·.addr) ∧
      [65] ∈ (⟨[⟨[65], 0⟩], 0⟩ : ServerState).clients.map (·.addr) ∧
      (⟨[⟨[65], 0⟩], 0⟩ : ServerState).check_counter + 1 < 100) ∧
    (((server_step ⟨[⟨[65], 0⟩], 0⟩ 5 [66] (3 :: [104])).2).count
        ([65], encode_message .NewClient [66]) = 1 ∧
      ((server_step ⟨[⟨[65], 0⟩], 0⟩ 5 [66] (3 :: [104])).2).count
        ([66], encode_message .NewClient [65]) = 1) :=
  ⟨⟨by decide, by decide, by decide, by decide⟩,
    hello_handshake_symmetry ⟨[⟨[65], 0⟩], 0⟩ 5 [66] [104] [65]
      (by decide) (by decide) (by decide) (by decide)⟩

/-- C7 (corrected), counterexample to the claim as stated: an unknown-kind
datagram does change the registry's liveness state.  From an empty registry,
a kind-99 datagram from `[66]` registers `[66]`; and with `[65]` registered
at time 0, a kind-99 datagram from `[65]` at time 7 refreshes its
last-activity timestamp to 7. -/
theorem unknown_kind_updates_liveness :
    (server_step ⟨[], 0⟩ 5 [66] (99 :: [1])).1.clients = [⟨[66], 5⟩] ∧
    (server_step ⟨[⟨[65], 0⟩], 0⟩ 7 [65] (99 :: [1])).1.clients =
      [⟨[65], 7⟩] := by
  refine ⟨by decide, by decide⟩

/-- C7 (amended): a datagram whose kind byte is outside the known set goes
through the same per-datagram liveness handling as any other datagram —
register the sender if absent, refresh it if present, run the sweep when
the counter reaches 100 — and its dispatch then changes nothing and sends
nothing: the step equals the pure liveness part. -/
theorem unknown_kind_dispatch_noop (st : ServerState) (now : Nat)
    (addr : Addr) (k : Nat) (payload : List Nat)
    (hk : k ≠ 1 ∧ k ≠ 2 ∧ k ≠ 3 ∧ k ≠ 4 ∧ k ≠ 5 ∧ k ≠ 6) :
    server_step st now addr (k :: payload) =
      (let clients1 := registerOrRefresh st.clients addr now
       if 100 ≤ st.check_counter + 1 then
         (⟨(runSweep clients1 now).1, 0⟩, (runSweep clients1 now).2)
       else (⟨clients1, st.check_counter + 1⟩, [])) := by
  obtain ⟨h1, h2, h3, h4, h5, h6⟩ := hk
  have hdec : decode_message (k :: payload) = .Unknown k payload := by
    simp [decode_message, MessageType.toByte, h1, h2, h3, h4, h5, h6]
  simp only [server_step, dispatch, hdec]
  split <;> simp

/-- Witness for `unknown_kind_dispatch_noop`: kind byte 99 from `[66]` on a
registry holding `[65]`. -/
theorem unknown_kind_dispatch_noop_witness :
    ((99 : Nat) ≠ 1 ∧ (99 : Nat) ≠ 2 ∧ (99 : Nat) ≠ 3 ∧ (99 : Nat) ≠ 4 ∧
      (99 : Nat) ≠ 5 ∧ (99 : Nat) ≠ 6) ∧
    server_step ⟨[⟨[65], 0⟩], 3⟩ 9 [66] (99 :: [2]) =
      (let clients1 := registerOrRefresh
          (⟨[⟨[65], 0⟩], 3⟩ : ServerState).clients [66] 9
       if 100 ≤ (⟨[⟨[65], 0⟩], 3⟩ : ServerState).check_counter + 1 then
         (⟨(runSweep clients1 9).1, 0⟩, (runSweep clients1 9).2)
       else (⟨clients1, (⟨[⟨[65], 0⟩], 3⟩ : ServerState).check_counter + 1⟩,
         [])) :=
  ⟨by decide, unknown_kind_dispatch_noop ⟨[⟨[65], 0⟩], 3⟩ 9 [66] 99 [2]
    (by decide)⟩

/-- `remove_client` always leaves exactly the entries whose address
differs (when nothing matched, the filter is the identity). -/
lemma remove_client_fst (cs : List ClientInfo) (a : Addr) :
    (remove_client cs a).1 = cs.filter fun c => ¬ c.addr = a := by
  unfold remove_client
  dsimp only
  split
  · rfl
  · rename_i h
    show cs = cs.filter fun c => decide ¬ c.addr = a
    have hall : ∀ c ∈ cs, (decide ¬ c.addr = a) = true := by
      by_contra hcon
      push_neg at hcon
      obtain ⟨c, hcmem, hcp⟩ := hcon
      exact h (List.length_filter_lt_length_iff_exists.mpr ⟨c, hcmem, hcp⟩)
    exact (List.filter_eq_self.mpr hall).symm

/-- The registry after `removeAll` is the input registry with every entry
whose address is in the removal list dropped. -/
lemma removeAll_fst (toRemove : List Addr) (cs : List ClientInfo) :
    (removeAll toRemove cs).1 = cs.filter fun c => ¬ c.addr ∈ toRemove := by
  induction toRemove generalizing cs with
  | nil => simp [removeAll]
  | cons a rest ih =>
    show (removeAll rest (remove_client cs a).1).1 = _
    rw [ih, remove_client_fst, List.filter_filter]
    refine List.filter_congr fun c _ => ?_
    by_cases h1 : c.addr = a <;> by_cases h2 : c.addr ∈ rest <;>
      simp [h1, h2]

/-- The per-iteration liveness update keeps every address, possibly adding
the sender's at the end. -/
lemma registerOrRefresh_map_addr (cs : List ClientInfo) (a : Addr)
    (now : Nat) :
    (registerOrRefresh cs a now).map (·.addr) =
      if cs.any fun c => c.addr = a then cs.map (·.addr)
      else cs.map (·.addr) ++ [a] := by
  have hmap : (cs.map fun c =>
      if c.addr = a then { c with last_active := now } else c).map (·.addr)
      = cs.map (·.addr) := by
    rw [List.map_map]
    refine List.map_congr_left fun c _ => ?_
    by_cases h : c.addr = a <;> simp [h]
  unfold registerOrRefresh
  split <;> simp_all

/-- The liveness update preserves distinctness of registry addresses. -/
lemma registerOrRefresh_nodup (cs : List ClientInfo) (a : Addr) (now : Nat)
    (hnd : (cs.map (·.addr)).Nodup) :
    ((registerOrRefresh cs a now).map (·.addr)).Nodup := by
  rw [registerOrRefresh_map_addr]
  split
  · exact hnd
  · rename_i h
    rw [List.nodup_append]
    refine ⟨hnd, List.nodup_singleton a, ?_⟩
    intro x hx hxa
    rw [List.mem_singleton] at hxa
    subst hxa
    rw [List.any_eq_true] at h
    obtain ⟨c, hcmem, hca⟩ := List.mem_map.mp hx
    exact h ⟨c, hcmem, by simp [hca]⟩

/-- An entry whose address is not the sender's survives the liveness
update unchanged. -/
lemma registerOrRefresh_mem_of_ne (cs : List ClientInfo) (a : Addr)
    (now : Nat) (S : ClientInfo) (hS : S ∈ cs) (hne : S.addr ≠ a) :
    S ∈ registerOrRefresh cs a now := by
  have hmem : S ∈ cs.map fun c =>
      if c.addr = a then { c with last_active := now } else c := by
    refine List.mem_map.mpr ⟨S, hS, ?_⟩
    simp [hne]
  unfold registerOrRefresh
  split
  · exact hmem
  · exact List.mem_append_left _ hmem

/-- When an entry for `a` is present, `remove_client` sends the Bye
acknowledgment to `a` followed by one DeleteClient datagram per surviving
entry, in registry order. -/
lemma remove_client_snd_of_mem (cs : List ClientInfo) (a : Addr)
    (hex : ∃ c ∈ cs, c.addr = a) :
    (remove_client cs a).2 =
      (a, encode_message .Bye []) ::
        (cs.filter fun c => ¬ c.addr = a).map
          (fun c => (c.addr, encode_message .DeleteClient a)) := by
  have hlt : (cs.filter fun c => ¬ c.addr = a).length < cs.length := by
    obtain ⟨c, hc, hca⟩ := hex
    exact List.length_filter_lt_length_iff_exists.mpr ⟨c, hc, by simp [hca]⟩
  unfold remove_client
  dsimp only
  split
  · rfl
  · omega

/-- A removal of an address other than `S` emits no DeleteClient datagram
naming `S`. -/
lemma remove_client_count_delete_ne (cs : List ClientInfo) (a S y : Addr)
    (hne : a ≠ S) :
    (remove_client cs a).2.count
      (y, encode_message .DeleteClient S) = 0 := by
  rw [List.count_eq_zero]
  intro hmem
  unfold remove_client at hmem
  dsimp only at hmem
  split at hmem
  · rcases List.mem_cons.mp hmem with h | h
    · exact absurd (congrArg (fun s => s.2) h)
        (by simp [encode_message, MessageType.toByte])
    · obtain ⟨c, -, hc⟩ := List.mem_map.mp h
      have := congrArg (fun s => s.2) hc
      simp only [encode_message, MessageType.toByte, List.cons.injEq] at this
      exact hne this.2
  · simp at hmem

/-- The DeleteClient broadcast of one removal reaches address `y` once per
surviving entry carrying `y`. -/
lemma count_delete_broadcast (cs : List ClientInfo) (y S : Addr) :
    (cs.map fun c => (c.addr, encode_message .DeleteClient S)).count
        (y, encode_message .DeleteClient S)
      = cs.countP fun c => c.addr = y := by
  induction cs with
  | nil => simp
  | cons c rest ih =>
    rw [List.map_cons, List.count_cons, ih, List.countP_cons]
    by_cases h : c.addr = y <;> simp [h, beq_iff_eq, Prod.ext_iff]

/-- A sweep whose removal list is `toRemove` sends the Bye acknowledgment
to every removed address that had an entry. -/
lemma removeAll_bye_mem (toRemove : List Addr) (cs : List ClientInfo)
    (a : Addr) (ha : a ∈ toRemove) (hex : ∃ c ∈ cs, c.addr = a) :
    (a, encode_message .Bye []) ∈ (removeAll toRemove cs).2 := by
  induction toRemove generalizing cs with
  | nil => simp at ha
  | cons b rest ih =>
    show _ ∈ (remove_client cs b).2 ++
      (removeAll rest (remove_client cs b).1).2
    by_cases hba : b = a
    · subst hba
      rw [remove_client_snd_of_mem cs b hex]
      exact List.mem_append_left _ (List.mem_cons_self _ _)
    · refine List.mem_append_right _ ?_
      rcases List.mem_cons.mp ha with h | h
      · exact absurd h.symm hba
      · refine ih _ h ?_
        rw [remove_client_fst]
        obtain ⟨c, hc, hca⟩ := hex
        refine ⟨c, List.mem_filter.mpr ⟨hc, ?_⟩, hca⟩
        simp only [decide_eq_true_eq]
        rw [hca]
        exact fun hh => hba hh.symm

/-- No DeleteClient datagram naming `S` is emitted by a sweep that does
not remove `S`. -/
lemma removeAll_count_delete_zero (toRemove : List Addr)
    (cs : List ClientInfo) (S y : Addr) (hS : S ∉ toRemove) :
    (removeAll toRemove cs).2.count
      (y, encode_message .DeleteClient S) = 0 := by
  induction toRemove generalizing cs with
  | nil => simp [removeAll]
  | cons b rest ih =>
    show ((remove_client cs b).2 ++
      (removeAll rest (remove_client cs b).1).2).count _ = 0
    rw [List.count_append,
      remove_client_count_delete_ne cs b S y
        (fun h => hS (h ▸ List.mem_cons_self b rest)),
      ih _ (fun h => hS (List.mem_cons_of_mem b h))]

/-- During a sweep with pairwise-distinct removal addresses over a registry
with pairwise-distinct entry addresses, every entry that survives the whole
sweep receives exactly one DeleteClient datagram naming the removed
address `S`. -/
lemma removeAll_count_delete (toRemove : List Addr) (cs : List ClientInfo)
    (S : Addr) (x : ClientInfo)
    (hnd : (cs.map (·.addr)).Nodup) (hrnd : toRemove.Nodup)
    (hSas : S ∈ toRemove) (hScs : ∃ c ∈ cs, c.addr = S)
    (hx : x ∈ (removeAll toRemove cs).1) :
    (removeAll toRemove cs).2.count
      (x.addr, encode_message .DeleteClient S) = 1 := by
  induction toRemove generalizing cs with
  | nil => simp at hSas
  | cons b rest ih =>
    have hx' : x ∈ (removeAll rest (remove_client cs b).1).1 := hx
    show ((remove_client cs b).2 ++
      (removeAll rest (remove_client cs b).1).2).count _ = 1
    rw [List.count_append]
    rw [List.nodup_cons] at hrnd
    by_cases hbS : b = S
    · subst hbS
      rw [remove_client_snd_of_mem cs b hScs, List.count_cons,
        count_delete_broadcast]
      have hxrem : x ∈ cs.filter fun c => ¬ c.addr = b := by
        rw [removeAll_fst, remove_client_fst] at hx'
        exact (List.mem_filter.mp hx').1
      have hndrem : ((cs.filter fun c => ¬ c.addr = b).map (·.addr)).Nodup :=
        ((List.filter_sublist cs).map (·.addr)).nodup hnd
      have hone := countP_addr_eq_one _ x.addr hndrem
        (List.mem_map.mpr ⟨x, hxrem, rfl⟩)
      rw [hone, removeAll_count_delete_zero rest _ b x.addr hrnd.1]
      simp [beq_iff_eq, Prod.ext_iff, encode_message, MessageType.toByte]
    · rw [remove_client_count_delete_ne cs b S x.addr hbS]
      have hScs' : ∃ c ∈ (remove_client cs b).1, c.addr = S := by
        rw [remove_client_fst]
        obtain ⟨c, hc, hca⟩ := hScs
        refine ⟨c, List.mem_filter.mpr ⟨hc, ?_⟩, hca⟩
        simp only [decide_eq_true_eq]
        rw [hca]
        exact fun hh => hbS hh.symm
      have hnd' : (((remove_client cs b).1).map (·.addr)).Nodup := by
        rw [remove_client_fst]
        exact ((List.filter_sublist cs).map (·.addr)).nodup hnd
      have hSrest : S ∈ rest := by
        rcases List.mem_cons.mp hSas with h | h
        · exact absurd h.symm hbS
        · exact h
      rw [ih _ hnd' hrnd.2 hSrest hScs' hx']


/-- Inversion for the Audio branch: only a buffer whose first byte is 1
decodes to `Audio`, with the rest as payload. -/
lemma decode_audio_inv (buf data : List Nat)
    (h : decode_message buf = .Audio data) : buf = 1 :: data := by
  cases buf with
  | nil => simp [decode_message] at h
  | cons k p =>
    simp only [decode_message, MessageType.toByte] at h
    split_ifs at h <;> simp_all

/-- Message dispatch never adds registry entries. -/
lemma dispatch_fst_subset (cs : List ClientInfo) (a : Addr)
    (buf : List Nat) (c : ClientInfo)
    (hc : c ∈ (dispatch cs a buf).1) : c ∈ cs := by
  unfold dispatch at hc
  cases hm : decode_message buf <;> rw [hm] at hc <;> dsimp only at hc <;>
    first
      | exact hc
      | (rw [remove_client_fst] at hc
         exact (List.mem_filter.mp hc).1)

/-- Message dispatch for a datagram from `a ≠ S` emits no DeleteClient
datagram naming `S` (Audio forwards the kind-1 buffer, Hello sends kinds 3
and 5, Bye broadcasts DeleteClient naming `a` only). -/
lemma dispatch_count_delete_zero (cs : List ClientInfo) (a : Addr)
    (buf : List Nat) (S y : Addr) (hne : a ≠ S) :
    (dispatch cs a buf).2.count
      (y, encode_message .DeleteClient S) = 0 := by
  cases hm : decode_message buf with
  | Audio data =>
    rw [List.count_eq_zero]
    intro hmem
    unfold dispatch at hmem
    rw [hm] at hmem
    dsimp only at hmem
    obtain ⟨c, -, hceq⟩ := List.mem_map.mp hmem
    have hbuf := decode_audio_inv buf data hm
    have := congrArg (fun s => s.2) hceq
    simp only [hbuf, encode_message, MessageType.toByte,
      List.cons.injEq] at this
    exact absurd this.1 (by decide)
  | Hello text =>
    rw [List.count_eq_zero]
    intro hmem
    unfold dispatch at hmem
    rw [hm] at hmem
    dsimp only at hmem
    rcases List.mem_cons.mp hmem with h | h
    · exact absurd (congrArg (fun s => s.2) h)
        (by simp [encode_message, MessageType.toByte])
    · obtain ⟨c, -, hc⟩ := List.mem_flatMap.mp h
      rcases List.mem_cons.mp hc with h1 | h1
      · exact absurd (congrArg (fun s => s.2) h1)
          (by simp [encode_message, MessageType.toByte])
      · rw [List.mem_singleton] at h1
        exact absurd (congrArg (fun s => s.2) h1)
          (by simp [encode_message, MessageType.toByte])
  | Bye =>
    have h0 := remove_client_count_delete_ne cs a S y hne
    unfold dispatch
    rw [hm]
    exact h0
  | Ping =>
    unfold dispatch
    rw [hm]
    simp
  | NewClient d =>
    unfold dispatch
    rw [hm]
    simp
  | DeleteClient d =>
    unfold dispatch
    rw [hm]
    simp
  | Unknown k d =>
    unfold dispatch
    rw [hm]
    simp

/-- When the counter reaches 100, the step is: liveness update, sweep,
counter reset, dispatch on the swept registry, with the sweep's sends
before the dispatch's. -/
lemma server_step_sweep (st : ServerState) (now : Nat) (addr : Addr)
    (buf : List Nat) (hcnt : 100 ≤ st.check_counter + 1) :
    server_step st now addr buf =
      (⟨(dispatch (runSweep (registerOrRefresh st.clients addr now) now).1
          addr buf).1, 0⟩,
        (runSweep (registerOrRefresh st.clients addr now) now).2 ++
          (dispatch (runSweep (registerOrRefresh st.clients addr now) now).1
            addr buf).2) := by
  simp [server_step, hcnt]

/-- The sweep is `removeAll` on the stale addresses. -/
lemma runSweep_eq (clients : List ClientInfo) (now : Nat) :
    runSweep clients now =
      removeAll ((clients.filter
        fun c => 500 ≤ now - c.last_active).map (·.addr)) clients := rfl

/-- C6: when the datagram that arrives is the 100th since the last sweep
(`check_counter = 99`), any registered peer `S` other than the sender whose
last activity is at least 500 seconds old is removed by the sweep: no entry
for its address survives the step, it is sent a Bye acknowledgment, and
every peer still registered after the step receives exactly one
DeleteClient datagram carrying `S`'s address as text.  (Registry addresses
are assumed pairwise distinct, which the registration path maintains.) -/
theorem stale_peer_evicted (st : ServerState) (now : Nat) (sender : Addr)
    (buf : List Nat) (S : ClientInfo)
    (hnd : (st.clients.map (·.addr)).Nodup)
    (hcnt : st.check_counter = 99)
    (hS : S ∈ st.clients) (hSsender : S.addr ≠ sender)
    (hstale : 500 ≤ now - S.last_active) :
    (∀ c ∈ (server_step st now sender buf).1.clients, c.addr ≠ S.addr) ∧
    (S.addr, encode_message .Bye []) ∈ (server_step st now sender buf).2 ∧
    ∀ c ∈ (server_step st now sender buf).1.clients,
      (server_step st now sender buf).2.count
        (c.addr, encode_message .DeleteClient S.addr) = 1 := by
  have hge : 100 ≤ st.check_counter + 1 := by omega
  rw [server_step_sweep st now sender buf hge]
  set clients1 := registerOrRefresh st.clients sender now with hc1
  have hnd1 : (clients1.map (·.addr)).Nodup := by
    rw [hc1]
    exact registerOrRefresh_nodup _ _ _ hnd
  have hS1 : S ∈ clients1 := by
    rw [hc1]
    exact registerOrRefresh_mem_of_ne _ _ _ S hS hSsender
  set toRemove :=
    (clients1.filter fun c => 500 ≤ now - c.last_active).map (·.addr)
    with htr
  have hrnd : toRemove.Nodup := by
    rw [htr]
    exact ((List.filter_sublist clients1).map (·.addr)).nodup hnd1
  have hStr : S.addr ∈ toRemove := by
    rw [htr]
    exact List.mem_map.mpr
      ⟨S, List.mem_filter.mpr ⟨hS1, by simpa using hstale⟩, rfl⟩
  have hex : ∃ c ∈ clients1, c.addr = S.addr := ⟨S, hS1, rfl⟩
  have hsweep : runSweep clients1 now = removeAll toRemove clients1 := by
    rw [runSweep_eq, htr]
  rw [hsweep]
  refine ⟨?_, ?_, ?_⟩
  · intro c hcmem
    have hc2 := dispatch_fst_subset _ _ _ _ hcmem
    rw [removeAll_fst] at hc2
    have hnotin := (List.mem_filter.mp hc2).2
    simp only [decide_eq_true_eq] at hnotin
    intro heq
    exact hnotin (by rw [heq]; exact hStr)
  · exact List.mem_append_left _
      (removeAll_bye_mem toRemove clients1 S.addr hStr hex)
  · intro c hcmem
    have hc2 : c ∈ (removeAll toRemove clients1).1 :=
      dispatch_fst_subset _ _ _ _ hcmem
    rw [List.count_append,
      removeAll_count_delete toRemove clients1 S.addr c hnd1 hrnd hStr hex
        hc2,
      dispatch_count_delete_zero _ _ _ _ _ (fun h => hSsender h.symm)]

/-- Witness for `stale_peer_evicted`: peer `[65]` (stale since time 0) and
peer `[66]`; the 100th datagram, a Ping from `[66]`, arrives at time 600. -/
theorem stale_peer_evicted_witness :
    (((⟨[⟨[65], 0⟩, ⟨[66], 550⟩], 99⟩ : ServerState).clients.map
        (·.addr)).Nodup ∧
      (⟨[⟨[65], 0⟩, ⟨[66], 550⟩], 99⟩ : ServerState).check_counter = 99 ∧
      (⟨[65], 0⟩ : ClientInfo) ∈
        (⟨[⟨[65], 0⟩, ⟨[66], 550⟩], 99⟩ : ServerState).clients ∧
      (⟨[65], 0⟩ : ClientInfo).addr ≠ [66] ∧
      500 ≤ 600 - (⟨[65], 0⟩ : ClientInfo).last_active) ∧
    ((∀ c ∈ (server_step ⟨[⟨[65], 0⟩, ⟨[66], 550⟩], 99⟩ 600 [66]
        [2]).1.clients, c.addr ≠ (⟨[65], 0⟩ : ClientInfo).addr) ∧
      ((⟨[65], 0⟩ : ClientInfo).addr, encode_message .Bye []) ∈
        (server_step ⟨[⟨[65], 0⟩, ⟨[66], 550⟩], 99⟩ 600 [66] [2]).2 ∧
      ∀ c ∈ (server_step ⟨[⟨[65], 0⟩, ⟨[66], 550⟩], 99⟩ 600 [66]
          [2]).1.clients,
        (server_step ⟨[⟨[65], 0⟩, ⟨[66], 550⟩], 99⟩ 600 [66] [2]).2.count
          (c.addr, encode_message .DeleteClient
            (⟨[65], 0⟩ : ClientInfo).addr) = 1) :=
  ⟨⟨by decide, by decide, by decide, by decide, by decide⟩,
    stale_peer_evicted ⟨[⟨[65], 0⟩, ⟨[66], 550⟩], 99⟩ 600 [66] [2]
      ⟨[65], 0⟩ (by decide) (by decide) (by decide) (by decide) (by decide)⟩

/-! ## Claims about the client voice gate -/

/-- A polled TUI message only rewrites the state before the gate runs:
`ToggleMute` flips the flag, everything else is ignored. -/
lemma consume_inbox_eq (enc : List Int → List Nat) (st : NetworkClient)
    (msg : TuiMessage) (data : List Nat) :
    NetworkClient.consume enc st (some msg) data =
      NetworkClient.consume enc
        (match msg with
          | TuiMessage.ToggleMute => { st with muted := !st.muted }
          | _ => st) none data := by
  cases msg <;> rfl

/-- One `consume` step on a silent frame from an unmuted state with empty
inbox: the counter drops by one (staying at zero), the frame is sent
exactly when the counter was nonzero. -/
lemma consume_silent (enc : List Int → List Nat) (h L : Nat) (f : List Nat)
    (hlen : FRAME_SIZE * CHANNELS ≤ (bytesToPcm f).length)
    (hs : is_silence ((bytesToPcm f).take (FRAME_SIZE * CHANNELS)) 200
      = true) :
    NetworkClient.consume enc ⟨h, L, false⟩ none f =
      some (⟨h - 1, L, false⟩,
        (if h = 0 then [TuiMessage.TransmitAudio false]
          else [TuiMessage.TransmitAudio true]),
        if h = 0 then none
        else some (encode_message .Audio
          (enc ((bytesToPcm f).take (FRAME_SIZE * CHANNELS))))) := by
  by_cases hh : h = 0 <;>
    simp [NetworkClient.consume, Nat.not_lt.mpr hlen, hs, hh]

/-- The effect of one `consume` step (empty inbox) on the gate state:
limit and mute flag are preserved; a muted state leaves the counter alone;
otherwise the counter is decremented (with truncation at zero) on a silent
frame and reset to the limit on a non-silent frame. -/
lemma consume_none_hangover (enc : List Int → List Nat)
    (st : NetworkClient) (data : List Nat)
    (out : NetworkClient × List TuiMessage × Option (List Nat))
    (hc : NetworkClient.consume enc st none data = some out) :
    out.1.hangover_limit = st.hangover_limit ∧
    out.1.muted = st.muted ∧
    (st.muted = true → out.1.hangover = st.hangover) ∧
    (st.muted = false →
      (is_silence ((bytesToPcm data).take (FRAME_SIZE * CHANNELS)) 200
          = true → out.1.hangover = st.hangover - 1) ∧
      (is_silence ((bytesToPcm data).take (FRAME_SIZE * CHANNELS)) 200
          = false → out.1.hangover = st.hangover_limit)) := by
  unfold NetworkClient.consume at hc
  by_cases hm : st.muted = true
  · simp only [hm, if_true, Option.some.injEq] at hc
    subst hc
    simp [hm]
  · have hm' : st.muted = false := by
      simpa using hm
    by_cases hlen : (bytesToPcm data).length < FRAME_SIZE * CHANNELS
    · simp [hm', hlen] at hc
    · by_cases hsil :
        is_silence ((bytesToPcm data).take (FRAME_SIZE * CHANNELS)) 200
          = true
      · by_cases hz : st.hangover = 0
        · simp only [hm', Bool.false_eq_true, if_false, hlen, if_true,
            hsil, hz, Option.some.injEq] at hc
          subst hc
          simp [hm', hz, hsil]
        · simp only [hm', Bool.false_eq_true, if_false, hlen, if_true,
            hsil, hz, Option.some.injEq] at hc
          subst hc
          simp [hm', hsil]
      · simp only [hm', Bool.false_eq_true, if_false, hlen, if_true,
          hsil, Option.some.injEq] at hc
        subst hc
        simp only [Bool.not_eq_true] at hsil
        simp [hm', hsil]

/-- Running `consume` over silent frames from an unmuted state with counter
`h`: frame `i` (0-based) is encoded and sent when `i < h`, and suppressed
with a `TransmitAudio false` event from frame `h` on. -/
lemma consumeRun_silent (enc : List Int → List Nat) (L h : Nat)
    (frames : List (List Nat))
    (out : NetworkClient × List (List TuiMessage × Option (List Nat)))
    (hsil : ∀ f ∈ frames,
      FRAME_SIZE * CHANNELS ≤ (bytesToPcm f).length ∧
      is_silence ((bytesToPcm f).take (FRAME_SIZE * CHANNELS)) 200 = true)
    (hrun : consumeRun enc ⟨h, L, false⟩ frames = some out)
    (i : Nat) (hi : i < frames.length) :
    (i < h → ∀ f, frames[i]? = some f →
      out.2[i]? = some ([TuiMessage.TransmitAudio true],
        some (encode_message .Audio
          (enc ((bytesToPcm f).take (FRAME_SIZE * CHANNELS)))))) ∧
    (h ≤ i → out.2[i]? = some ([TuiMessage.TransmitAudio false], none)) := by
  induction frames generalizing h out i with
  | nil => exact absurd hi (by simp)
  | cons f fs ih =>
    obtain ⟨hlen, hs⟩ := hsil f (List.mem_cons_self f fs)
    rw [consumeRun, consume_silent enc h L f hlen hs] at hrun
    dsimp only at hrun
    cases hrec : consumeRun enc ⟨h - 1, L, false⟩ fs with
    | none => rw [hrec] at hrun; simp at hrun
    | some out2 =>
      rw [hrec] at hrun
      simp only [Option.some.injEq] at hrun
      subst hrun
      cases i with
      | zero =>
        constructor
        · intro hlt f2 hf2
          have hz : ¬ h = 0 := by omega
          simp only [List.getElem?_cons_zero, Option.some.injEq] at hf2
          subst hf2
          simp [hz]
        · intro hle
          have hz : h = 0 := by omega
          simp [hz]
      | succ j =>
        have hstep := ih (h - 1) out2
          (fun g hg => hsil g (List.mem_cons_of_mem f hg)) hrec j
          (by simpa using Nat.lt_of_succ_lt_succ hi)
        constructor
        · intro hlt f2 hf2
          simp only [List.getElem?_cons_succ] at hf2 ⊢
          exact hstep.1 (by omega) f2 hf2
        · intro hle
          simp only [List.getElem?_cons_succ]
          exact hstep.2 (by omega)

/-- C3: from the gate state reached right after a non-silent frame
(counter = limit = 10, mute off), over any run of consecutive silent
frames with nothing on the TUI channel, the frames at positions 0..9 are
each encoded and handed to `try_send` as an Audio datagram, and every
frame from position 10 on — in particular the 11th silent frame — is
suppressed: nothing is sent and the only event emitted is
`TransmitAudio false`. -/
theorem hangover_ten_then_suppress (enc : List Int → List Nat)
    (frames : List (List Nat))
    (out : NetworkClient × List (List TuiMessage × Option (List Nat)))
    (hsil : ∀ f ∈ frames,
      FRAME_SIZE * CHANNELS ≤ (bytesToPcm f).length ∧
      is_silence ((bytesToPcm f).take (FRAME_SIZE * CHANNELS)) 200 = true)
    (hrun : consumeRun enc ⟨10, 10, false⟩ frames = some out)
    (i : Nat) (hi : i < frames.length) :
    (i < 10 → ∀ f, frames[i]? = some f →
      out.2[i]? = some ([TuiMessage.TransmitAudio true],
        some (encode_message .Audio
          (enc ((bytesToPcm f).take (FRAME_SIZE * CHANNELS)))))) ∧
    (10 ≤ i → out.2[i]? = some ([TuiMessage.TransmitAudio false], none)) :=
  consumeRun_silent enc 10 10 frames out hsil hrun i hi

/-- Reinterpreting an all-zero byte buffer yields all-zero samples. -/
lemma bytesToPcm_replicate_zero (n : Nat) :
    bytesToPcm (List.replicate (2 * n) 0) = List.replicate n 0 := by
  induction n with
  | zero => rfl
  | succ k ihk =>
    have h2 : 2 * (k + 1) = (2 * k) + 1 + 1 := by ring
    have hstep : bytesToPcm (0 :: 0 :: List.replicate (2 * k) 0) =
        i16OfLE 0 0 :: bytesToPcm (List.replicate (2 * k) 0) := rfl
    rw [h2, List.replicate_succ, List.replicate_succ, hstep, ihk,
      List.replicate_succ]
    simp [i16OfLE]

/-- The sum of squares of an all-zero frame is zero. -/
lemma sumSq_replicate_zero (n : Nat) :
    sumSq (List.replicate n (0 : Int)) = 0 := by
  induction n with
  | zero => rfl
  | succ k ihk => simp [List.replicate_succ, sumSq, ihk]

/-- A nonempty all-zero frame is classified silent. -/
lemma is_silence_replicate_zero (n : Nat) (h : n ≠ 0) :
    is_silence (List.replicate n (0 : Int)) 200 = true := by
  have hne : (List.replicate n (0 : Int)).isEmpty = false := by
    simp [List.isEmpty_iff, h]
  unfold is_silence
  rw [hne, sumSq_replicate_zero]
  have hn : (0 : ℚ) < (n : ℚ) := by
    exact_mod_cast Nat.pos_of_ne_zero h
  simp only [Bool.false_eq_true, if_false, List.length_replicate,
    decide_eq_true_eq, Int.cast_zero]
  nlinarith

/-- The all-zero 3840-byte buffer holds a full frame of samples. -/
lemma zeroFrame_len :
    FRAME_SIZE * CHANNELS ≤ (bytesToPcm (List.replicate 3840 0)).length := by
  have h1 : (3840 : Nat) = 2 * 1920 := by norm_num
  rw [h1, bytesToPcm_replicate_zero, List.length_replicate]
  norm_num [FRAME_SIZE, CHANNELS]

/-- The frame taken from the all-zero buffer is silent. -/
lemma zeroFrame_silent :
    is_silence ((bytesToPcm (List.replicate 3840 0)).take
      (FRAME_SIZE * CHANNELS)) 200 = true := by
  have h1 : (3840 : Nat) = 2 * 1920 := by norm_num
  rw [h1, bytesToPcm_replicate_zero]
  have h2 : (List.replicate 1920 (0 : Int)).take (FRAME_SIZE * CHANNELS) =
      List.replicate 1920 0 := by
    rw [List.take_replicate]
    norm_num [FRAME_SIZE, CHANNELS]
  rw [h2]
  exact is_silence_replicate_zero 1920 (by norm_num)

/-- Eleven all-zero frames from the full-hangover state: ten sent, the
eleventh suppressed. -/
lemma consumeRun_eleven :
    consumeRun (fun _ => []) ⟨10, 10, false⟩
      (List.replicate 11 (List.replicate 3840 0)) =
      some (⟨0, 10, false⟩,
        List.replicate 10 ([TuiMessage.TransmitAudio true], some [1]) ++
          [([TuiMessage.TransmitAudio false], none)]) := by
  have hstep : ∀ h : Nat,
      NetworkClient.consume (fun _ => []) ⟨h, 10, false⟩ none
        (List.replicate 3840 0) =
      some (⟨h - 1, 10, false⟩,
        (if h = 0 then [TuiMessage.TransmitAudio false]
          else [TuiMessage.TransmitAudio true]),
        if h = 0 then none else some [1]) := by
    intro h
    have hq := consume_silent (fun _ => []) h 10 (List.replicate 3840 0)
      zeroFrame_len zeroFrame_silent
    exact hq
  have hfr : List.replicate 11 (List.replicate 3840 0) =
      List.replicate 3840 0 :: List.replicate 3840 0 ::
      List.replicate 3840 0 :: List.replicate 3840 0 ::
      List.replicate 3840 0 :: List.replicate 3840 0 ::
      List.replicate 3840 0 :: List.replicate 3840 0 ::
      List.replicate 3840 0 :: List.replicate 3840 0 ::
      List.replicate 3840 0 :: [] := rfl
  rw [hfr]
  simp [consumeRun, hstep, -List.reduceReplicate]
  rfl

/-- Witness for `hangover_ten_then_suppress`: eleven all-zero frames; the
frame at index 10 — the eleventh — is suppressed. -/
theorem hangover_ten_then_suppress_witness :
    ((∀ f ∈ List.replicate 11 (List.replicate 3840 0),
        FRAME_SIZE * CHANNELS ≤ (bytesToPcm f).length ∧
        is_silence ((bytesToPcm f).take (FRAME_SIZE * CHANNELS)) 200
          = true) ∧
      consumeRun (fun _ => []) ⟨10, 10, false⟩
          (List.replicate 11 (List.replicate 3840 0)) =
        some (⟨0, 10, false⟩,
          List.replicate 10 ([TuiMessage.TransmitAudio true], some [1]) ++
            [([TuiMessage.TransmitAudio false], none)]) ∧
      10 < (List.replicate 11 (List.replicate 3840 0)).length) ∧
    ((10 < 10 → ∀ f, (List.replicate 11 (List.replicate 3840 0))[10]? =
        some f →
        ((⟨0, 10, false⟩,
          List.replicate 10 ([TuiMessage.TransmitAudio true], some [1]) ++
            [([TuiMessage.TransmitAudio false], none)]) :
          NetworkClient ×
            List (List TuiMessage × Option (List Nat))).2[10]? =
          some ([TuiMessage.TransmitAudio true],
            some (encode_message .Audio
              ((fun _ => []) ((bytesToPcm f).take
                (FRAME_SIZE * CHANNELS)))))) ∧
      (10 ≤ 10 →
        ((⟨0, 10, false⟩,
          List.replicate 10 ([TuiMessage.TransmitAudio true], some [1]) ++
            [([TuiMessage.TransmitAudio false], none)]) :
          NetworkClient ×
            List (List TuiMessage × Option (List Nat))).2[10]? =
          some ([TuiMessage.TransmitAudio false], none))) := by
  have hsil : ∀ f ∈ List.replicate 11 (List.replicate 3840 0),
      FRAME_SIZE * CHANNELS ≤ (bytesToPcm f).length ∧
      is_silence ((bytesToPcm f).take (FRAME_SIZE * CHANNELS)) 200
        = true := by
    intro f hf
    have hf' : f = List.replicate 3840 0 := List.eq_of_mem_replicate hf
    subst hf'
    exact ⟨zeroFrame_len, zeroFrame_silent⟩
  exact ⟨⟨hsil, consumeRun_eleven, by norm_num⟩,
    hangover_ten_then_suppress (fun _ => [])
      (List.replicate 11 (List.replicate 3840 0)) _ hsil consumeRun_eleven
      10 (by norm_num)⟩

/-- Step properties of the gate for an empty inbox, packaged with the
range bound and the explicit stays-at-zero fact. -/
lemma consume_step_props (enc : List Int → List Nat) (st : NetworkClient)
    (data : List Nat) (out : NetworkClient × List TuiMessage × Option (List Nat))
    (hc : NetworkClient.consume enc st none data = some out) :
    out.1.hangover_limit = st.hangover_limit ∧
    (st.hangover ≤ st.hangover_limit →
      out.1.hangover ≤ st.hangover_limit) ∧
    (st.muted = true → out.1.hangover = st.hangover) ∧
    (st.muted = false →
      (is_silence ((bytesToPcm data).take (FRAME_SIZE * CHANNELS)) 200
          = true →
        out.1.hangover = st.hangover - 1 ∧
        (st.hangover = 0 → out.1.hangover = 0)) ∧
      (is_silence ((bytesToPcm data).take (FRAME_SIZE * CHANNELS)) 200
          = false → out.1.hangover = st.hangover_limit)) := by
  obtain ⟨hl, hmeq, hmt, hmf⟩ := consume_none_hangover enc st data out hc
  refine ⟨hl, ?_, hmt, fun hm => ?_⟩
  · intro hb
    by_cases hm : st.muted = true
    · rw [hmt hm]; exact hb
    · have hm' : st.muted = false := by simpa using hm
      obtain ⟨hdec, hres⟩ := hmf hm'
      cases hsv : is_silence ((bytesToPcm data).take
          (FRAME_SIZE * CHANNELS)) 200 with
      | true => rw [hdec hsv]; omega
      | false => rw [hres hsv]
  · obtain ⟨hdec, hres⟩ := hmf hm
    exact ⟨fun hsv => ⟨hdec hsv, fun hz => by rw [hdec hsv, hz]⟩, hres⟩

/-- C8: single-step and whole-run invariants of the hangover counter.  For
any step that returns (does not hit the short-buffer out-of-bounds case):
the limit never changes; if the counter starts within `0..=limit` it stays
there; with the effective mute flag set (after applying a polled
`ToggleMute`) the counter is untouched; unmuted, a silent frame decrements
the counter by exactly one except that zero stays zero (no underflow, as
the code tests for zero before subtracting), and a non-silent frame resets
it to the limit.  Consequently over any frame sequence the counter stays
within `0..=limit`. -/
theorem hangover_counter_invariant :
    (∀ (enc : List Int → List Nat) (st : NetworkClient)
        (inbox : Option TuiMessage) (data : List Nat)
        (out : NetworkClient × List TuiMessage × Option (List Nat)),
      NetworkClient.consume enc st inbox data = some out →
      out.1.hangover_limit = st.hangover_limit ∧
      (st.hangover ≤ st.hangover_limit →
        out.1.hangover ≤ st.hangover_limit) ∧
      ((match inbox with
          | some TuiMessage.ToggleMute => !st.muted
          | _ => st.muted) = true → out.1.hangover = st.hangover) ∧
      ((match inbox with
          | some TuiMessage.ToggleMute => !st.muted
          | _ => st.muted) = false →
        (is_silence ((bytesToPcm data).take (FRAME_SIZE * CHANNELS)) 200
            = true →
          out.1.hangover = st.hangover - 1 ∧
          (st.hangover = 0 → out.1.hangover = 0)) ∧
        (is_silence ((bytesToPcm data).take (FRAME_SIZE * CHANNELS)) 200
            = false → out.1.hangover = st.hangover_limit))) ∧
    (∀ (enc : List Int → List Nat) (st : NetworkClient)
        (frames : List (List Nat))
        (out : NetworkClient × List (List TuiMessage × Option (List Nat))),
      consumeRun enc st frames = some out →
      st.hangover ≤ st.hangover_limit →
      out.1.hangover ≤ st.hangover_limit ∧
      out.1.hangover_limit = st.hangover_limit) := by
  constructor
  · intro enc st inbox data out hc
    cases inbox with
    | none => exact consume_step_props enc st data out hc
    | some msg =>
      rw [consume_inbox_eq] at hc
      cases msg <;> exact consume_step_props enc _ data out hc
  · intro enc st frames
    induction frames generalizing st with
    | nil =>
      intro out hrun hb
      rw [consumeRun] at hrun
      simp only [Option.some.injEq] at hrun
      subst hrun
      exact ⟨hb, rfl⟩
    | cons f fs ih =>
      intro out hrun hb
      rw [consumeRun] at hrun
      cases hstep : NetworkClient.consume enc st none f with
      | none => rw [hstep] at hrun; simp at hrun
      | some o1 =>
        rw [hstep] at hrun
        obtain ⟨st1, ev, snt⟩ := o1
        dsimp only at hrun
        cases hrec : consumeRun enc st1 fs with
        | none => rw [hrec] at hrun; simp at hrun
        | some out2 =>
          rw [hrec] at hrun
          simp only [Option.some.injEq] at hrun
          subst hrun
          obtain ⟨hl, hbstep, -, -⟩ :=
            consume_step_props enc st f (st1, ev, snt) hstep
          have hb1 : st1.hangover ≤ st1.hangover_limit := by
            rw [hl]
            exact hbstep hb
          have hres := ih st1 out2 hrec hb1
          constructor
          · rw [← hl]
            exact hres.1
          · rw [← hl]
            exact hres.2

/-- Witness for `hangover_counter_invariant`, first part, at the state
`⟨5, 10, false⟩` on an all-zero frame with empty inbox. -/
theorem hangover_counter_invariant_witness :
    (NetworkClient.consume (fun _ => []) ⟨5, 10, false⟩ none
        (List.replicate 3840 0) =
      some (⟨4, 10, false⟩, [TuiMessage.TransmitAudio true], some [1])) ∧
    ((⟨4, 10, false⟩ : NetworkClient).hangover_limit =
        (⟨5, 10, false⟩ : NetworkClient).hangover_limit ∧
      ((⟨5, 10, false⟩ : NetworkClient).hangover ≤
          (⟨5, 10, false⟩ : NetworkClient).hangover_limit →
        ((⟨4, 10, false⟩, [TuiMessage.TransmitAudio true],
            some [1]) : NetworkClient × List TuiMessage ×
            Option (List Nat)).1.hangover ≤
          (⟨5, 10, false⟩ : NetworkClient).hangover_limit) ∧
      ((match (none : Option TuiMessage) with
          | some TuiMessage.ToggleMute =>
            !(⟨5, 10, false⟩ : NetworkClient).muted
          | _ => (⟨5, 10, false⟩ : NetworkClient).muted) = true →
        ((⟨4, 10, false⟩, [TuiMessage.TransmitAudio true],
            some [1]) : NetworkClient × List TuiMessage ×
            Option (List Nat)).1.hangover =
          (⟨5, 10, false⟩ : NetworkClient).hangover) ∧
      ((match (none : Option TuiMessage) with
          | some TuiMessage.ToggleMute =>
            !(⟨5, 10, false⟩ : NetworkClient).muted
          | _ => (⟨5, 10, false⟩ : NetworkClient).muted) = false →
        (is_silence ((bytesToPcm (List.replicate 3840 0)).take
            (FRAME_SIZE * CHANNELS)) 200 = true →
          ((⟨4, 10, false⟩, [TuiMessage.TransmitAudio true],
              some [1]) : NetworkClient × List TuiMessage ×
              Option (List Nat)).1.hangover =
            (⟨5, 10, false⟩ : NetworkClient).hangover - 1 ∧
          ((⟨5, 10, false⟩ : NetworkClient).hangover = 0 →
            ((⟨4, 10, false⟩, [TuiMessage.TransmitAudio true],
                some [1]) : NetworkClient × List TuiMessage ×
                Option (List Nat)).1.hangover = 0)) ∧
        (is_silence ((bytesToPcm (List.replicate 3840 0)).take
            (FRAME_SIZE * CHANNELS)) 200 = false →
          ((⟨4, 10, false⟩, [TuiMessage.TransmitAudio true],
              some [1]) : NetworkClient × List TuiMessage ×
              Option (List Nat)).1.hangover =
            (⟨5, 10, false⟩ : NetworkClient).hangover_limit))) := by
  have hc : NetworkClient.consume (fun _ => []) ⟨5, 10, false⟩ none
      (List.replicate 3840 0) =
      some (⟨4, 10, false⟩, [TuiMessage.TransmitAudio true], some [1]) := by
    have hq := consume_silent (fun _ => []) 5 10 (List.replicate 3840 0)
      zeroFrame_len zeroFrame_silent
    simpa [-List.reduceReplicate] using hq
  exact ⟨hc, hangover_counter_invariant.1 (fun _ => []) ⟨5, 10, false⟩ none
    (List.replicate 3840 0) (⟨4, 10, false⟩,
      [TuiMessage.TransmitAudio true], some [1]) hc⟩

end KopAudio
